import Mathlib

/-!
Verification of the pyrelic pairing arithmetic layer.

The repository wraps the relic pairing library.  Its current consolidated
module (src/unnamed/part_001, matching pyrelic/_relic.pxd and
pyrelic/_relic.pyi) defines the Integer type BN, the groups G1, G2, GT,
the pairing, the batched pairing product and the batched multi-scalar
multiplication; the older split modules pyrelic/g1.pyx, pyrelic/g2.pyx and
pyrelic/pair.pyx contain near-identical code for the same operations.

Shallow embedding conventions:

* A BN value is modelled by its abstract value, an Int.  relic stores a
  sign and a magnitude of 64-bit limbs; the limb-level routines that the
  Python layer reimplements (BN_from_int, BN.__int__, BN.__bytes__) are
  embedded limb by limb below.
* The curve groups G1, G2 and the target group GT are all cyclic of the
  same prime order.  They are modelled as an arbitrary additive commutative
  group, written additively like the relic point API (g1_add, g1_neg);
  the Python layer writes the same operations multiplicatively.
* Opaque backend primitives of relic that the repository calls through its
  narrow interface (g1_mul, g1_mul_sim, pc_map, pc_map_sim, bn_gcd_ext) are
  modelled by their mathematical contract as stated at the boundary in the
  specification: scalar multiplication, double scalar multiplication, a
  bilinear map, the product of pairings, and extended gcd.
* Fallible Python code returns Except PyErr; Python exception classes are
  mapped to PyErr constructors.
-/

namespace Pyrelic

/-- Word size of a relic digit: relic.pxd declares dig_t as uint64_t, so the
WSIZE constant of the backend is 64 bits. -/
def WSIZE : Nat := 64

/-- Errors raised by the embedded Python code.  typeErrorAtIndex models a
TypeError whose message names an index, as in the f-string
messages of pair_product and mul_sim; typeErrorNotIterable models the
TypeError raised by unpacking a non-iterable object; valueErrorUnpack
models the ValueError raised by unpacking a sequence whose length is not
two; valueErrorLength models the ValueError raised by mul_sim when the
values and scalars sequences differ in length. -/
inductive PyErr where
  | typeErrorAtIndex (idx : Nat)
  | typeErrorNotIterable
  | valueErrorUnpack
  | valueErrorLength
deriving DecidableEq

/-- A Python object as seen by the runtime type checks of pair_product:
an element of G1, an element of G2, a machine integer, or a tuple. -/
inductive PyObj (A B : Type) where
  | g1obj (p : A)
  | g2obj (q : B)
  | intobj (n : Int)
  | tupleobj (items : List (PyObj A B))

/-- Result of the Python statement that unpacks an object into two names,
as in the line with cur_args_0 and cur_args_1 of pair_product: a two-item
tuple unpacks, a tuple of any other length raises ValueError, and a
non-iterable object raises TypeError. -/
def unpack2 {A B : Type} : PyObj A B → Except PyErr (PyObj A B × PyObj A B)
  | .tupleobj [x, y] => .ok (x, y)
  | .tupleobj _ => .error .valueErrorUnpack
  | _ => .error .typeErrorNotIterable

/-- One iteration of the argument checks of pair_product at a given index:
unpack the object into two components, then the isinstance checks; a
component failing the isinstance test raises the TypeError
whose message names the index (source: part_001 lines 823-825). -/
def checkPair {A B : Type} (idx : Nat) (obj : PyObj A B) : Except PyErr (A × B) := do
  let xy ← unpack2 obj
  match xy.1, xy.2 with
  | .g1obj p, .g2obj q => .ok (p, q)
  | _, _ => .error (.typeErrorAtIndex idx)

/-- The argument loop of pair_product for two or more arguments: check and
collect every pair in index order, propagating the first error
(source: part_001 lines 822-830). -/
def collectPairs {A B : Type} : List (PyObj A B) → Nat → Except PyErr (List (A × B))
  | [], _ => .ok []
  | obj :: rest, idx => do
      let pq ← checkPair idx obj
      let tail ← collectPairs rest (idx + 1)
      pure (pq :: tail)

/-- Contract of the opaque backend primitive pc_map_sim: given the arrays of
G1 and G2 elements, it computes the product of the pairings of the
corresponding entries (specification section 4.4 and glossary; the shared
final exponentiation is internal to the backend).  The pairing map itself
is the parameter e. -/
def pcMapSim {A B C : Type} [AddCommMonoid C] (e : A → B → C) (ps : List (A × B)) : C :=
  List.foldl (fun acc pq => acc + e pq.1 pq.2) 0 ps

/-- Embedding of pair_product (src/unnamed/part_001 lines 790-842).  The
source branches on len(args): zero arguments return the GT unity, one
argument falls back to a single pc_map evaluation after its type check,
and two or more arguments run the per-index check loop and call
pc_map_sim.  The three match arms mirror the three length cases. -/
def pair_product {A B C : Type} [AddCommMonoid C] (e : A → B → C) :
    List (PyObj A B) → Except PyErr C
  | [] => .ok 0
  | [single] => do
      let pq ← checkPair 0 single
      pure (e pq.1 pq.2)
  | args => do
      let ps ← collectPairs args 0
      pure (pcMapSim e ps)

/-- The specification formula for the pairing product: fold the group
composition over the individual pairings, starting from the identity
(specification section 8, pairing-product correctness). -/
def pair_product_spec {A B C : Type} [AddCommMonoid C] (e : A → B → C)
    (pairs : List (A × B)) : C :=
  List.foldl (· + ·) 0 (pairs.map fun pq => e pq.1 pq.2)

/-- Encoding of a well-typed (G1, G2) argument of pair_product. -/
def encodePair {A B : Type} (pq : A × B) : PyObj A B :=
  .tupleobj [.g1obj pq.1, .g2obj pq.2]

theorem checkPair_encode {A B : Type} (idx : Nat) (pq : A × B) :
    checkPair idx (encodePair pq) = .ok pq := rfl

theorem collectPairs_encode {A B : Type} (pairs : List (A × B)) :
    ∀ idx : Nat, collectPairs (pairs.map encodePair) idx = .ok pairs := by
  induction pairs with
  | nil => intro idx; rfl
  | cons pq rest ih =>
      intro idx
      simp [collectPairs, checkPair_encode, ih (idx + 1)]
      rfl

/-- C1: for every sequence of well-typed (G1, G2) pairs, pair_product returns
the same GT element as folding the group composition over the individual
pairings starting from the GT identity; in particular the empty sequence
returns the identity, a one-element sequence returns exactly the single
pairing, and two or more elements go through the batched pc_map_sim path. -/
theorem pair_product_eq_fold_of_pairs {A B C : Type} [AddCommMonoid C]
    (e : A → B → C) (pairs : List (A × B)) :
    pair_product e (pairs.map encodePair) = .ok (pair_product_spec e pairs) := by
  match pairs with
  | [] => rfl
  | [pq] =>
      simp [pair_product, pair_product_spec, checkPair_encode]
  | p1 :: p2 :: rest =>
      have hc := collectPairs_encode (p1 :: p2 :: rest) 0
      simp only [List.map_cons] at hc ⊢
      simp [pair_product, hc, pair_product_spec, pcMapSim, List.foldl_map]

/-- The isinstance test against G1 used by the argument checks. -/
def isG1obj {A B : Type} : PyObj A B → Bool
  | .g1obj _ => true
  | _ => false

/-- The isinstance test against G2 used by the argument checks. -/
def isG2obj {A B : Type} : PyObj A B → Bool
  | .g2obj _ => true
  | _ => false

theorem checkPair_wrongtuple {A B : Type} (x y : PyObj A B)
    (hbad : ¬(isG1obj x = true ∧ isG2obj y = true)) (idx : Nat) :
    checkPair idx (.tupleobj [x, y]) = .error (.typeErrorAtIndex idx) := by
  cases x <;> cases y <;> simp [isG1obj, isG2obj] at hbad <;> rfl

theorem collectPairs_wrongtuple {A B : Type} (x y : PyObj A B)
    (hbad : ¬(isG1obj x = true ∧ isG2obj y = true))
    (rest : List (PyObj A B)) (good : List (A × B)) :
    ∀ idx : Nat,
      collectPairs (good.map encodePair ++ PyObj.tupleobj [x, y] :: rest) idx =
        .error (.typeErrorAtIndex (idx + good.length)) := by
  induction good with
  | nil =>
      intro idx
      simp only [List.map_nil, List.nil_append, collectPairs,
        checkPair_wrongtuple x y hbad idx]
      rfl
  | cons pq tl ih =>
      intro idx
      have h := ih (idx + 1)
      have harith : idx + 1 + tl.length = idx + (tl.length + 1) := by omega
      simp only [List.map_cons, List.cons_append, collectPairs,
        checkPair_encode, List.append_eq, h, harith, List.length_cons]
      rfl

/-- C9 amended, part of the corrected claim: when the element at index i is a
two-component tuple whose components are not a G1 and a G2 element (all
earlier arguments being well-typed pairs), pair_product raises the TypeError
whose message names index i. -/
theorem pair_product_wrongtuple_error {A B C : Type} [AddCommMonoid C]
    (e : A → B → C) (good : List (A × B)) (x y : PyObj A B)
    (rest : List (PyObj A B))
    (hbad : ¬(isG1obj x = true ∧ isG2obj y = true)) :
    pair_product e (good.map encodePair ++ PyObj.tupleobj [x, y] :: rest) =
      .error (.typeErrorAtIndex good.length) := by
  match good, rest with
  | [], [] =>
      simp [pair_product, checkPair_wrongtuple x y hbad 0]
  | [], r :: rs =>
      have h := collectPairs_wrongtuple x y hbad (r :: rs) [] 0
      simp only [List.map_nil, List.nil_append] at h
      simp [pair_product, h]
  | [g], rest =>
      have h := collectPairs_wrongtuple x y hbad rest [g] 0
      simp only [List.map_cons, List.map_nil, List.cons_append, List.nil_append] at h ⊢
      simp [pair_product, h]
  | g1 :: g2 :: gs, rest =>
      have h := collectPairs_wrongtuple x y hbad rest (g1 :: g2 :: gs) 0
      simp only [List.map_cons, List.cons_append] at h ⊢
      simp [pair_product, h]

/-- Witness for the amended C9 theorem: a concrete wrong-component tuple at
index 1 after one well-typed pair, instantiated over the integers. -/
theorem pair_product_wrongtuple_error_witness :
    ¬(isG1obj (PyObj.intobj 7 : PyObj Int Int) = true ∧
        isG2obj (PyObj.g2obj 2 : PyObj Int Int) = true) ∧
      pair_product (fun p q : Int => p * q)
          ([((3 : Int), (4 : Int))].map encodePair ++
            PyObj.tupleobj [PyObj.intobj 7, PyObj.g2obj 2] :: []) =
        .error (.typeErrorAtIndex 1) :=
  ⟨by simp [isG1obj], by
    have h := pair_product_wrongtuple_error (fun p q : Int => p * q)
      [((3 : Int), (4 : Int))] (PyObj.intobj 7) (PyObj.g2obj 2) []
      (by simp [isG1obj])
    simpa using h⟩

/-- C9 counterexample: at the input of the claim, a list whose element at
index 1 is the machine integer 5 and not a tuple, pair_product raises the
TypeError coming from unpacking a non-iterable object, whose message does
not name the offending index; the claim expects the index-naming TypeError
at index 1. -/
theorem pair_product_nontuple_error_cex :
    pair_product (fun p q : Int => p * q)
        [PyObj.tupleobj [PyObj.g1obj 1, PyObj.g2obj 1], PyObj.intobj 5] =
      .error .typeErrorNotIterable ∧
    PyErr.typeErrorNotIterable ≠ PyErr.typeErrorAtIndex 1 :=
  ⟨rfl, by decide⟩

/-- Number of bits of a nonnegative Python integer, as computed by the
_PyLong_NumBits call in BN_from_int_implementation: zero has zero bits,
otherwise one bit more than the integer halved. -/
def bitLength (n : Nat) : Nat :=
  if n = 0 then 0 else bitLength (n / 2) + 1
termination_by n
decreasing_by exact Nat.div_lt_self (Nat.pos_of_ne_zero (by assumption)) (by norm_num)

/-- Contract of the backend primitive bn_read_raw: a little-endian array of
WSIZE-bit digits denotes the sum of the digits weighted by the powers of
2 ^ WSIZE; the resulting big number is nonnegative, since raw digits carry
no sign. -/
def bn_read_raw : List Nat → Nat
  | [] => 0
  | limb :: rest => limb + 2 ^ WSIZE * bn_read_raw rest

/-- Embedding of BN_from_int_implementation (part_001 lines 340-354): size
the limb buffer to the number of bits divided by WSIZE rounded up, fill
limb idx with the masked shift (data >> (WSIZE * idx)) & mask where mask
has all WSIZE bits set, and reassemble the buffer with bn_read_raw. -/
def BN_from_int_implementation (data : Nat) : Int :=
  (bn_read_raw ((List.range ((bitLength data + WSIZE - 1) / WSIZE)).map
    fun idx => (data >>> (WSIZE * idx)) % 2 ^ WSIZE) : Int)

/-- Embedding of BN_from_int (part_001 lines 357-366): a negative machine
integer is converted by building the BN of its negation and then negating
the result with bn_neg; a nonnegative one is converted directly. -/
def BN_from_int (data : Int) : Int :=
  if data < 0 then -(BN_from_int_implementation (-data).toNat)
  else BN_from_int_implementation data.toNat

theorem lt_two_pow_bitLength (n : Nat) : n < 2 ^ bitLength n := by
  rw [bitLength]
  split
  · omega
  · rename_i h
    have ih := lt_two_pow_bitLength (n / 2)
    have hp : 2 ^ (bitLength (n / 2) + 1) = 2 * 2 ^ bitLength (n / 2) := by ring
    omega
termination_by n
decreasing_by exact Nat.div_lt_self (Nat.pos_of_ne_zero (by assumption)) (by norm_num)

theorem bn_read_raw_range :
    ∀ (L : Nat) (d : Nat), d < 2 ^ (WSIZE * L) →
      bn_read_raw ((List.range L).map fun idx => (d >>> (WSIZE * idx)) % 2 ^ WSIZE) = d := by
  intro L
  induction L with
  | zero =>
      intro d hd
      simp only [Nat.mul_zero, pow_zero, Nat.lt_one_iff] at hd
      simp [bn_read_raw, hd]
  | succ n ih =>
      intro d hd
      rw [List.range_succ_eq_map]
      simp only [List.map_cons, List.map_map]
      have htail : (List.range n).map ((fun idx => (d >>> (WSIZE * idx)) % 2 ^ WSIZE) ∘ Nat.succ)
          = (List.range n).map fun idx => ((d >>> WSIZE) >>> (WSIZE * idx)) % 2 ^ WSIZE := by
        refine List.map_congr_left ?_
        intro i _
        have hsh : WSIZE * Nat.succ i = WSIZE + WSIZE * i := by
          rw [Nat.mul_succ, Nat.add_comm]
        simp [Function.comp, hsh, Nat.shiftRight_add]
      have hd2 : d >>> WSIZE < 2 ^ (WSIZE * n) := by
        rw [Nat.shiftRight_eq_div_pow]
        have hpow : 2 ^ (WSIZE * Nat.succ n) = 2 ^ WSIZE * 2 ^ (WSIZE * n) := by
          rw [Nat.mul_succ, pow_add, Nat.mul_comm]
        refine Nat.div_lt_of_lt_mul ?_
        calc d < 2 ^ (WSIZE * Nat.succ n) := hd
          _ = 2 ^ WSIZE * 2 ^ (WSIZE * n) := hpow
      rw [htail, bn_read_raw]
      rw [ih (d >>> WSIZE) hd2]
      simp only [Nat.mul_zero, Nat.shiftRight_zero, Nat.shiftRight_eq_div_pow,
        pow_zero, Nat.div_one]
      exact Nat.mod_add_div d (2 ^ WSIZE)

theorem BN_from_int_implementation_eq (data : Nat) :
    BN_from_int_implementation data = data := by
  unfold BN_from_int_implementation
  have hle : bitLength data ≤ WSIZE * ((bitLength data + WSIZE - 1) / WSIZE) := by
    simp only [WSIZE]
    omega
  have hlt : data < 2 ^ (WSIZE * ((bitLength data + WSIZE - 1) / WSIZE)) :=
    lt_of_lt_of_le (lt_two_pow_bitLength data) (Nat.pow_le_pow_right (by norm_num) hle)
  rw [bn_read_raw_range _ data hlt]

theorem BN_from_int_eq (n : Int) : BN_from_int n = n := by
  unfold BN_from_int
  split
  · rename_i h
    rw [BN_from_int_implementation_eq]
    have htn : (((-n).toNat : Nat) : Int) = -n := Int.toNat_of_nonneg (by omega)
    rw [htn]; ring
  · rename_i h
    rw [BN_from_int_implementation_eq]
    exact Int.toNat_of_nonneg (by omega)

/-- C6: BN_from_int constructs, for every signed machine integer, an Integer
whose abstract value is exactly that integer: the magnitude is decomposed
into WSIZE-bit limbs and reassembled, and the result is negative exactly
when the input is negative. -/
theorem BN_from_int_exact (n : Int) :
    BN_from_int n = n ∧ (BN_from_int n < 0 ↔ n < 0) := by
  have h := BN_from_int_eq n
  exact ⟨h, by rw [h]⟩

/-- Little-endian digit list of a magnitude in base 2 ^ WSIZE, with no
trailing zero digit: the used digits of a relic big number. -/
def rawLimbs (n : Nat) : List Nat :=
  if n = 0 then [] else n % 2 ^ WSIZE :: rawLimbs (n / 2 ^ WSIZE)
termination_by n
decreasing_by
  exact Nat.div_lt_self (Nat.pos_of_ne_zero (by assumption)) (by norm_num [WSIZE])

/-- Contract of bn_size_raw and bn_write_raw: the used little-endian digits
of the magnitude of the value.  relic keeps the sign in a separate field
that bn_write_raw does not output, so only the magnitude is written; the
value zero occupies one zero digit. -/
def bn_write_raw (x : Int) : List Nat :=
  if x.natAbs = 0 then [0] else rawLimbs x.natAbs

/-- Embedding of BN.__int__ (part_001 lines 290-303): allocate bn_size_raw
digits, write them with bn_write_raw, and accumulate digit idx shifted
left by WSIZE * idx into a Python integer.  The bitwise or of the loop
combines bit ranges that are disjoint because every digit is below
2 ^ WSIZE, so the accumulation is the sum computed by bn_read_raw. -/
def BN_int (x : Int) : Int := (bn_read_raw (bn_write_raw x) : Int)

theorem bn_read_raw_rawLimbs (n : Nat) : bn_read_raw (rawLimbs n) = n := by
  rw [rawLimbs]
  split
  · rename_i h
    simp [bn_read_raw, h]
  · rename_i h
    have ih := bn_read_raw_rawLimbs (n / 2 ^ WSIZE)
    rw [bn_read_raw, ih]
    exact Nat.mod_add_div n (2 ^ WSIZE)
termination_by n
decreasing_by
  exact Nat.div_lt_self (Nat.pos_of_ne_zero (by assumption)) (by norm_num [WSIZE])

theorem BN_int_eq (x : Int) : BN_int x = (x.natAbs : Int) := by
  unfold BN_int bn_write_raw
  split
  · rename_i h
    simp [bn_read_raw, h]
  · rw [bn_read_raw_rawLimbs]

/-- C10: converting a BN to a Python machine integer returns the magnitude
of the value as a nonnegative integer, and in particular converting the BN
built from a negative machine integer returns the negation of that
integer: the sign is not carried through the conversion. -/
theorem BN_int_magnitude (x : Int) :
    BN_int x = (x.natAbs : Int) ∧ BN_int (BN_from_int x) = (x.natAbs : Int) ∧
      (x < 0 → BN_int (BN_from_int x) = -x) := by
  refine ⟨BN_int_eq x, ?_, ?_⟩
  · rw [BN_from_int_eq, BN_int_eq]
  · intro hx
    rw [BN_from_int_eq, BN_int_eq]
    omega

/-- Witness for the C10 theorem at the concrete negative input -3. -/
theorem BN_int_magnitude_witness :
    (-3 : Int) < 0 ∧ BN_int (BN_from_int (-3)) = -(-3) :=
  ⟨by decide, (BN_int_magnitude (-3)).2.2 (by decide)⟩

/-- Big-endian byte list of a nonnegative magnitude, most significant byte
first and with no leading zero byte: the contract of the backend pair
bn_size_bin and bn_write_bin, which write the minimal big-endian encoding
of the magnitude; zero has size zero and encodes as the empty string. -/
def natToBytesBE (n : Nat) : List Nat :=
  if n = 0 then [] else natToBytesBE (n / 256) ++ [n % 256]
termination_by n
decreasing_by exact Nat.div_lt_self (Nat.pos_of_ne_zero (by assumption)) (by norm_num)

/-- Embedding of BN.__bytes__ (part_001 lines 272-276): allocate bn_size_bin
bytes, write the value with bn_write_bin and return the buffer.  Only the
magnitude is encoded: the encoding has no sign bit. -/
def BN_bytes (x : Int) : List Nat := natToBytesBE x.natAbs

/-- Contract of the backend bn_read_bin: read an unsigned big-endian byte
string into a nonnegative big number. -/
def bytesToNat (buf : List Nat) : Nat := buf.foldl (fun acc b => acc * 256 + b) 0

/-- Embedding of the BN constructor with a bytes argument (part_001 lines
114-117): the fresh value reads the buffer with bn_read_bin. -/
def BN_from_bytes (buf : List Nat) : Int := (bytesToNat buf : Int)

theorem bytesToNat_natToBytesBE (n : Nat) : bytesToNat (natToBytesBE n) = n := by
  rw [natToBytesBE]
  split
  · rename_i h
    simp [bytesToNat, h]
  · rename_i h
    have ih := bytesToNat_natToBytesBE (n / 256)
    unfold bytesToNat at ih ⊢
    rw [List.foldl_append, ih]
    simp only [List.foldl_cons, List.foldl_nil]
    omega
termination_by n
decreasing_by exact Nat.div_lt_self (Nat.pos_of_ne_zero (by assumption)) (by norm_num)

/-- Embedding of G1.__bytes__, G2.__bytes__ and GT.__bytes__ (part_001 lines
427-431, 595-599 and 748-752): the element is passed to the backend point
serializer with its backend-chosen size and the buffer is returned
unchanged.  The opaque backend serializer is the parameter. -/
def grp_bytes {G : Type} (write_bin : G → List Nat) (x : G) : List Nat := write_bin x

/-- Embedding of the G1, G2 and GT constructors with a bytes argument
(part_001 lines 375-378, 537-540 and 694-697): the buffer is passed
unchanged to the opaque backend point reader. -/
def grp_from_bytes {G : Type} (read_bin : List Nat → G) (buf : List Nat) : G := read_bin buf

/-- C5 counterexample: the Integer minus one serializes to the single byte
one, which deserializes to plus one, so the round trip does not return the
original value on negative Integers. -/
theorem bytes_roundtrip_neg_cex :
    BN_from_bytes (BN_bytes (-1)) = 1 ∧ (1 : Int) ≠ -1 := by
  constructor
  · simp [BN_bytes, BN_from_bytes, bytesToNat_natToBytesBE]
  · decide

/-- C5 amended: the serialization round trip returns the original value for
every group element, whose bytes are delegated unchanged to the backend
serializer pair, and for every nonnegative Integer; a negative Integer
instead deserializes to its absolute value, because the byte encoding
carries no sign. -/
theorem from_bytes_to_bytes_roundtrip {G : Type}
    (write_bin : G → List Nat) (read_bin : List Nat → G) (x : G)
    (hbackend : read_bin (write_bin x) = x) (n : Int) (hn : 0 ≤ n) :
    grp_from_bytes read_bin (grp_bytes write_bin x) = x ∧
      BN_from_bytes (BN_bytes n) = n := by
  refine ⟨hbackend, ?_⟩
  simp only [BN_bytes, BN_from_bytes, bytesToNat_natToBytesBE]
  omega

/-- Witness for the amended C5 theorem: a concrete one-byte backend codec on
Nat for the group element 42, and the Integer 5. -/
theorem from_bytes_to_bytes_roundtrip_witness :
    (fun buf : List Nat => buf.headD 0) ((fun v : Nat => [v]) 42) = 42 ∧
      (0 : Int) ≤ 5 ∧
      (grp_from_bytes (fun buf : List Nat => buf.headD 0)
          (grp_bytes (fun v : Nat => [v]) 42) = 42 ∧
        BN_from_bytes (BN_bytes 5) = 5) :=
  ⟨rfl, by decide, from_bytes_to_bytes_roundtrip (fun v : Nat => [v])
    (fun buf : List Nat => buf.headD 0) 42 rfl 5 (by decide)⟩

/-- Embedding of BN.__mod__ (part_001 lines 230-233): bn_mod reduces the
first operand into the range from zero to the modulus, the Euclidean
remainder, which is the emod operation of Int. -/
def bn_mod (a m : Int) : Int := a % m

/-- Embedding of BN.mod_inv (part_001 lines 235-239): bn_gcd_ext computes
the extended gcd of the value and the modulus, the Bezout coefficient of
the value is kept, and the method returns that coefficient reduced with
BN.__mod__.  No branch of the method raises.  The backend Bezout
coefficient is modelled by Int.gcdA, which satisfies the defining identity
of bn_gcd_ext: the gcd equals a times the coefficient of a plus m times
the coefficient of m. -/
def mod_inv (a m : Int) : Int := bn_mod (Int.gcdA a m) m

theorem mul_mod_inv_emod (a m : Int) :
    a * mod_inv a m % m = (Int.gcd a m : Int) % m := by
  unfold mod_inv bn_mod
  have h1 : Int.ModEq m (Int.gcdA a m % m) (Int.gcdA a m) :=
    Int.emod_emod_of_dvd _ dvd_rfl
  have h2 : Int.ModEq m (a * (Int.gcdA a m % m)) (a * Int.gcdA a m) :=
    Int.ModEq.mul_left a h1
  have h3 : a * Int.gcdA a m = (Int.gcd a m : Int) + m * (-Int.gcdB a m) := by
    linear_combination (Int.gcd_eq_gcd_ab a m).symm
  have h4 : Int.ModEq m ((Int.gcd a m : Int) + m * (-Int.gcdB a m))
      (Int.gcd a m : Int) := Int.add_mul_emod_self_left _ _ _
  exact h2.trans (by rw [h3]; exact h4)

theorem mod_inv_noncoprime_helper (a m : Int) (hnc : Int.gcd a m ≠ 1) :
    a * mod_inv a m % m ≠ 1 := by
  intro h
  have hg1 : (Int.gcd a m : Int) ∣ a := Int.gcd_dvd_left
  have hg2 : (Int.gcd a m : Int) ∣ m := Int.gcd_dvd_right
  have h5 : (Int.gcd a m : Int) ∣ a * mod_inv a m := hg1.mul_right _
  have h6 : (Int.gcd a m : Int) ∣ m * (a * mod_inv a m / m) := hg2.mul_right _
  have heq : (1 : Int) = a * mod_inv a m - m * (a * mod_inv a m / m) := by
    have hdm := Int.emod_add_ediv (a * mod_inv a m) m
    linarith [hdm, h]
  have hdvd1 : (Int.gcd a m : Int) ∣ 1 := by
    rw [heq]; exact dvd_sub h5 h6
  exact hnc (Nat.dvd_one.mp (by exact_mod_cast hdvd1))

/-- C3 counterexample: for the non-coprime input two modulo four, mod_inv
returns a value whose product with two is not congruent to one; no
ArithmeticError is raised. -/
theorem mod_inv_noncoprime_cex :
    Int.gcd 2 4 ≠ 1 ∧ 2 * mod_inv 2 4 % 4 ≠ 1 :=
  ⟨by decide, mod_inv_noncoprime_helper 2 4 (by decide)⟩

/-- C3 amended: for every Integer a and modulus m that are not coprime,
mod_inv raises nothing and returns a value, the Bezout coefficient of a
reduced modulo m, and that value is not a modular inverse of a. -/
theorem mod_inv_noncoprime_returns (a m : Int) (hnc : Int.gcd a m ≠ 1) :
    mod_inv a m = Int.gcdA a m % m ∧ a * mod_inv a m % m ≠ 1 :=
  ⟨rfl, mod_inv_noncoprime_helper a m hnc⟩

/-- Witness for the amended C3 theorem at the non-coprime input two modulo
six. -/
theorem mod_inv_noncoprime_returns_witness :
    Int.gcd 2 6 ≠ 1 ∧ (mod_inv 2 6 = Int.gcdA 2 6 % 6 ∧ 2 * mod_inv 2 6 % 6 ≠ 1) :=
  ⟨by decide, mod_inv_noncoprime_returns 2 6 (by decide)⟩

/-- C8 counterexample: for a equal one and modulus one, which are coprime,
the returned value reduced modulo one is zero, so the product with a
reduced modulo the modulus is zero and not one; the claim fails at the
modulus one. -/
theorem mod_inv_modulus_one_cex :
    Int.gcd 1 1 = 1 ∧ mod_inv 1 1 = 0 ∧ 1 * mod_inv 1 1 % 1 ≠ 1 := by
  refine ⟨by decide, ?_, ?_⟩
  · unfold mod_inv bn_mod
    exact Int.emod_one _
  · unfold mod_inv bn_mod
    simp [Int.emod_one]

/-- C8 amended: for every Integer a and modulus m greater than one with a
and m coprime, mod_inv returns a value x with a times x congruent to one
modulo m, and x is reduced into the range from zero to m. -/
theorem mod_inv_coprime_correct (a m : Int) (hco : Int.gcd a m = 1) (hm : 1 < m) :
    a * mod_inv a m % m = 1 ∧ 0 ≤ mod_inv a m ∧ mod_inv a m < m := by
  refine ⟨?_, ?_, ?_⟩
  · rw [mul_mod_inv_emod, hco]
    exact Int.emod_eq_of_lt (by norm_num) (by exact_mod_cast hm)
  · unfold mod_inv bn_mod
    exact Int.emod_nonneg _ (by omega)
  · unfold mod_inv bn_mod
    exact Int.emod_lt_of_pos _ (by omega)

/-- Witness for the amended C8 theorem at the coprime input three modulo
seven. -/
theorem mod_inv_coprime_correct_witness :
    Int.gcd 3 7 = 1 ∧ (1 : Int) < 7 ∧
      (3 * mod_inv 3 7 % 7 = 1 ∧ 0 ≤ mod_inv 3 7 ∧ mod_inv 3 7 < 7) :=
  ⟨by decide, by decide, mod_inv_coprime_correct 3 7 (by decide) (by decide)⟩

/-- Contract of the backend scalar multiplications g1_mul, g2_mul and the
exponentiation gt_exp: multiply a group element by an arbitrary big-number
scalar, the integer scalar action of the additive group. -/
def g1_mul {G : Type} [AddCommGroup G] (x : G) (n : Int) : G := n • x

/-- Contract of the backend negations g1_neg, g2_neg and the inversion
gt_inv: the group inverse. -/
def g1_neg {G : Type} [AddCommGroup G] (x : G) : G := -x

/-- The two kinds of exponent accepted by the Python power operators: a BN
object, modelled by its abstract value, or a Python machine integer. -/
inductive PyScalar where
  | bn (n : Int)
  | machineInt (n : Int)

/-- Embedding of G1.__pow__, G2.__pow__ and GT.__pow__ (part_001 lines
396-412, 558-574 and 717-733; the three methods are line-for-line the same
up to the backend symbol names).  A BN exponent is passed directly to the
backend scalar multiplication.  A machine-integer exponent is promoted
with BN_from_int; a negative one is handled by negating the element first
and multiplying the negation by the promoted absolute value. -/
def grp_pow {G : Type} [AddCommGroup G] (x : G) : PyScalar → G
  | .bn n => g1_mul x n
  | .machineInt n =>
      if n < 0 then g1_mul (g1_neg x) (BN_from_int (-n))
      else g1_mul x (BN_from_int n)

theorem grp_pow_machineInt {G : Type} [AddCommGroup G] (x : G) (n : Int) :
    grp_pow x (.machineInt n) = n • x := by
  show (if n < 0 then g1_mul (g1_neg x) (BN_from_int (-n))
      else g1_mul x (BN_from_int n)) = n • x
  unfold g1_mul g1_neg
  split
  · rw [BN_from_int_eq, neg_zsmul, zsmul_neg, neg_neg]
  · rw [BN_from_int_eq]

/-- C7: the Python power operator of the three groups satisfies the scalar
exponentiation homomorphism.  For all machine-integer exponents a and b,
including negative ones: composing the powers at a and b gives the power
at a plus b, the power at a times b is the power at b of the power at a,
the power at zero is the identity, and the machine-integer branch agrees
with the BN branch, the sign being handled by inverting the element and
exponentiating by the absolute value. -/
theorem grp_pow_homomorphism {G : Type} [AddCommGroup G] (x : G) (a b : Int) :
    grp_pow x (.machineInt a) + grp_pow x (.machineInt b)
        = grp_pow x (.machineInt (a + b)) ∧
      grp_pow x (.machineInt (a * b))
        = grp_pow (grp_pow x (.machineInt a)) (.machineInt b) ∧
      grp_pow x (.machineInt 0) = 0 ∧
      grp_pow x (.machineInt a) = grp_pow x (.bn a) := by
  refine ⟨?_, ?_, ?_, ?_⟩
  · rw [grp_pow_machineInt, grp_pow_machineInt, grp_pow_machineInt, add_zsmul]
  · rw [grp_pow_machineInt, grp_pow_machineInt, grp_pow_machineInt,
      mul_comm a b, mul_zsmul]
  · rw [grp_pow_machineInt, zero_zsmul]
  · rw [grp_pow_machineInt]
    unfold grp_pow g1_mul
    rfl

/-- Outcome of a Python augmented assignment through an __imul__ method: the
backend state of the left operand after the call, and the Python value the
method returns, to which the assigned name is rebound; none models the
Python None. -/
structure ImulResult (G : Type) where
  mutated : G
  returned : Option G
deriving DecidableEq

/-- Embedding of G1.__imul__ (part_001 lines 383-384): g1_add writes the
composition into the backend state of self, and the method body ends
without a return statement, so it returns None. -/
def G1_imul {G : Type} [AddCommGroup G] (self other : G) : ImulResult G :=
  ⟨self + other, none⟩

/-- Embedding of G2.__imul__ (part_001 lines 545-546): identical to the G1
method, with no return statement. -/
def G2_imul {G : Type} [AddCommGroup G] (self other : G) : ImulResult G :=
  ⟨self + other, none⟩

/-- Embedding of GT.__imul__ (part_001 lines 702-704): gt_mul writes the
composition into the backend state of self and the method returns self. -/
def GT_imul {G : Type} [AddCommGroup G] (self other : G) : ImulResult G :=
  ⟨self + other, some (self + other)⟩

/-- C4 evaluation: after the augmented assignment a *= b on G1 or G2
elements modelled over the integers, the returned value that Python
rebinds the name a to is None and not a group element, although the
backend state was mutated to the composition; the GT method by contrast
returns the mutated self.  This exhibits the missing return statement of
G1.__imul__ and G2.__imul__. -/
theorem g1_imul_returns_none :
    (G1_imul (3 : Int) 4).returned = none ∧ (G1_imul (3 : Int) 4).mutated = 7 ∧
      (G2_imul (3 : Int) 4).returned = none ∧
      (GT_imul (3 : Int) 4).returned = some 7 :=
  ⟨rfl, rfl, rfl, rfl⟩

/-- Contract of the backend simultaneous double-scalar multiplications
g1_mul_sim and g2_mul_sim: the composition of the two scalar multiples,
computed with interleaved doublings. -/
def g1_mul_sim {G : Type} [AddCommGroup G] (p : G) (s : Int) (q : G) (t : Int) : G :=
  g1_mul p s + g1_mul q t

/-- The accumulation loops of mul_sim (pyrelic/g1.pyx lines 149-172 and the
identical pyrelic/g2.pyx lines 141-164): consecutive pairs of operands are
combined with one g1_mul_sim call each and added into the accumulator; a
trailing unpaired operand is folded in with an ordinary g1_mul.  The
isinstance checks of the loop are identically satisfied on the well-typed
operand lists the embedding receives. -/
def mul_sim_loop {G : Type} [AddCommGroup G] : List (G × Int) → G → G
  | [], acc => acc
  | [(v, s)], acc => acc + g1_mul v s
  | (v1, s1) :: (v2, s2) :: rest, acc => mul_sim_loop rest (acc + g1_mul_sim v1 s1 v2 s2)

/-- Embedding of mul_sim (pyrelic/g1.pyx lines 134-172, pyrelic/g2.pyx lines
126-164, and the same functions mul_sim_G1 and mul_sim_G2 in part_001):
raise ValueError when the lengths differ, start the accumulator at the
optional base or at the neutral element, then run the pairwise loop. -/
def mul_sim {G : Type} [AddCommGroup G] (values : List G) (scalars : List Int)
    (base : Option G) : Except PyErr G :=
  if values.length ≠ scalars.length then .error .valueErrorLength
  else .ok (mul_sim_loop (values.zip scalars)
    (match base with
     | some b => b
     | none => 0))

/-- The specification formula for batched multiplication: the optional base
composed with the fold of the individual powers over the zipped operands,
starting from the identity (specification section 8, batched
multiplication correctness). -/
def mul_sim_spec {G : Type} [AddCommGroup G] (values : List G) (scalars : List Int)
    (base : Option G) : G :=
  (match base with
   | some b => b
   | none => 0) +
    List.foldl (fun acc vs => acc + vs.2 • vs.1) 0 (values.zip scalars)

/-- Sum of the individual powers of a zipped operand list, element by
element, used to relate the two accumulation orders. -/
def naive_sum {G : Type} [AddCommGroup G] : List (G × Int) → G
  | [] => 0
  | (v, s) :: rest => s • v + naive_sum rest

theorem foldl_pow_eq_naive_sum {G : Type} [AddCommGroup G] :
    ∀ (l : List (G × Int)) (init : G),
      List.foldl (fun acc vs => acc + vs.2 • vs.1) init l = init + naive_sum l := by
  intro l
  induction l with
  | nil => intro init; simp [naive_sum]
  | cons hd tl ih =>
      intro init
      obtain ⟨v, s⟩ := hd
      rw [List.foldl_cons, ih]
      simp only [naive_sum]
      abel

theorem mul_sim_loop_eq {G : Type} [AddCommGroup G] :
    ∀ (l : List (G × Int)) (acc : G), mul_sim_loop l acc = acc + naive_sum l
  | [], acc => by simp [mul_sim_loop, naive_sum]
  | [(v, s)], acc => by simp [mul_sim_loop, naive_sum, g1_mul]
  | (v1, s1) :: (v2, s2) :: rest, acc => by
      rw [mul_sim_loop, mul_sim_loop_eq rest]
      simp only [naive_sum]
      unfold g1_mul_sim g1_mul
      abel

/-- C2: for equal-length well-typed operand sequences and every optional
base, mul_sim succeeds and returns the base composed with the naive fold
of the individual powers, for even, odd and zero lengths alike: the
pairwise interleaved double-scalar-multiplication algorithm is
extensionally equal to the per-element fold. -/
theorem mul_sim_eq_naive_fold {G : Type} [AddCommGroup G]
    (values : List G) (scalars : List Int) (base : Option G)
    (hlen : values.length = scalars.length) :
    mul_sim values scalars base = .ok (mul_sim_spec values scalars base) := by
  unfold mul_sim mul_sim_spec
  rw [if_neg (by omega)]
  rw [mul_sim_loop_eq, foldl_pow_eq_naive_sum, zero_add]

/-- Witness for the C2 theorem: three operands over the integers, an odd
length, with a base. -/
theorem mul_sim_eq_naive_fold_witness :
    [(1 : Int), 2, 3].length = [(4 : Int), 5, 6].length ∧
      mul_sim [(1 : Int), 2, 3] [(4 : Int), 5, 6] (some 10) =
        .ok (mul_sim_spec [(1 : Int), 2, 3] [(4 : Int), 5, 6] (some 10)) :=
  ⟨by decide, mul_sim_eq_naive_fold [(1 : Int), 2, 3] [(4 : Int), 5, 6]
    (some 10) (by decide)⟩

end Pyrelic
